import Mathlib

/-!
Shallow embedding of src/main.c of the SC8P052 blink program.

The program configures the chip fuses at compile time, defines the clock
constant `_XTAL_FREQ = 8000000`, sets `TRISB = 0x00` once, then loops
forever: `PORTB = 0x01; _delay(100000); PORTB = 0x00; _delay(100000);`.

We model execution as a deterministic step machine over a state holding a
program counter and the two memory-mapped registers the program touches,
with each step emitting an observable event (a register write or a
busy-wait of a given iteration count).
-/

namespace SC8P052

/-- Oscillator source selections recognised by the `FOSC` configuration fuse. -/
inductive OscSel where
  | INTRC_NOCLKOUT
  | INTRC_CLKOUT
  | EXTRC
  | EC
  | HS
  | XT
  | LP
deriving DecidableEq

/-- Configuration fuse settings, one field per `#pragma config` line of
src/main.c. For each Boolean fuse, `true` means the feature is enabled. -/
structure ConfigBits where
  fosc : OscSel
  wdte : Bool
  pwrte : Bool
  mclre : Bool
  cp : Bool
  boren : Bool
deriving DecidableEq

/-- The configuration chosen by the pragmas of src/main.c lines 6 to 11:
`FOSC = INTRC_NOCLKOUT`, `WDTE = OFF`, `PWRTE = ON`, `MCLRE = ON`,
`CP = OFF`, `BOREN = OFF`. -/
def config : ConfigBits :=
  ⟨OscSel.INTRC_NOCLKOUT, false, true, true, false, false⟩

/-- The compile-time clock-frequency constant `_XTAL_FREQ` of src/main.c
line 1, in hertz. -/
def XTAL_FREQ : Nat := 8000000

/-- The iteration count passed to the `_delay` busy-wait primitive. The
source (src/main.c lines 20 and 22) passes the literal `100000`; the
literal does not mention `_XTAL_FREQ`, so viewed as a function of the
configured clock frequency the argument is the constant function. -/
def delayArg (freq : Nat) : Nat := 100000

/-- The delay count actually used in the program, i.e. the argument at the
configured clock frequency: the literal `100000`. -/
def delayCount : Nat := delayArg XTAL_FREQ

/-- Machine state: a program counter locating control inside `main`, plus
the two memory-mapped registers the program touches (each an 8-bit value,
held as a `Nat`). -/
structure MachState where
  pc : Nat
  trisb : Nat
  portb : Nat
deriving DecidableEq

/-- Observable effect of one instruction: a write of value `v` to the
direction register TRISB, a write of value `v` to the output register
PORTB, or a busy-wait of `n` iterations. -/
inductive Event where
  | writeTRISB (v : Nat)
  | writePORTB (v : Nat)
  | delay (n : Nat)
deriving DecidableEq

/-- One instruction of `main` (src/main.c lines 13 to 23). The program
counter selects: 0 = the `TRISB = 0x00` initialisation; 1 = `PORTB = 0x01`;
2 = the first `_delay(100000)`; 3 = `PORTB = 0x00`; 4 = the second
`_delay(100000)`, after which control returns to 1 (the `while(1)` loop
has no exit). A counter outside 0 to 4 corresponds to no instruction. -/
def step (s : MachState) : Option (MachState × Event) :=
  match s.pc with
  | 0 => some (⟨1, 0x00, s.portb⟩, Event.writeTRISB 0x00)
  | 1 => some (⟨2, s.trisb, 0x01⟩, Event.writePORTB 0x01)
  | 2 => some (⟨3, s.trisb, s.portb⟩, Event.delay delayCount)
  | 3 => some (⟨4, s.trisb, 0x00⟩, Event.writePORTB 0x00)
  | 4 => some (⟨1, s.trisb, s.portb⟩, Event.delay delayCount)
  | _ => none

/-- Run `n` steps from `s`, returning the final state and the emitted
event trace in order. -/
def run : Nat → MachState → MachState × List Event
  | 0, s => (s, [])
  | n + 1, s =>
    match step s with
    | none => (s, [])
    | some (s2, e) => ((run n s2).1, e :: (run n s2).2)

/-- The state after `n` steps. -/
def stateAfter (n : Nat) (s : MachState) : MachState := (run n s).1

/-- The event trace of the first `n` steps. -/
def trace (n : Nat) (s : MachState) : List Event := (run n s).2

/-- The power-on state: control at the start of `main`; the initial
register contents `t`, `p` are arbitrary (hardware-dependent). -/
def initState (t p : Nat) : MachState := ⟨0, t, p⟩

/-- The value a PORTB write carries, `none` for the other events. -/
def Event.portbValue : Event → Option Nat
  | Event.writePORTB v => some v
  | _ => none

/-- The iteration count a busy-wait event carries, `none` otherwise. -/
def Event.delayValue : Event → Option Nat
  | Event.delay n => some n
  | _ => none

/-- Whether an event is a write to the direction register TRISB. -/
def isDirWrite : Event → Bool
  | Event.writeTRISB _ => true
  | _ => false

/-- The events of one full iteration of the `while(1)` body. -/
def iterEvents : List Event :=
  [Event.writePORTB 0x01, Event.delay delayCount,
   Event.writePORTB 0x00, Event.delay delayCount]

/-- The sequence of electrical levels driven onto the monitored pin RB0
(bit 0 of PORTB) by the successive PORTB writes in the first `n` steps:
`true` = HIGH, `false` = LOW. -/
def pinLevels (n : Nat) (s : MachState) : List Bool :=
  ((trace n s).filterMap Event.portbValue).map (fun v => v.testBit 0)

/-- Four steps from the top of the loop emit one iteration's events and
return control to the top of the loop with PORTB left at `0x00`. -/
theorem run_add_four (m t p : Nat) :
    run (m + 4) ⟨1, t, p⟩ =
      ((run m ⟨1, t, 0x00⟩).1,
        Event.writePORTB 0x01 :: Event.delay delayCount ::
          Event.writePORTB 0x00 :: Event.delay delayCount ::
            (run m ⟨1, t, 0x00⟩).2) := rfl

/-- The trace of `k` full loop iterations, starting at the top of the
loop, is `k` copies of `iterEvents`. -/
theorem trace_loop (k : Nat) : ∀ t p : Nat,
    trace (4 * k) ⟨1, t, p⟩ = (List.replicate k iterEvents).flatten := by
  induction k with
  | zero => intro t p; rfl
  | succ k ih =>
    intro t p
    have h4 : 4 * (k + 1) = 4 * k + 4 := by ring
    rw [h4]
    have hu := run_add_four (4 * k) t p
    simp only [trace, hu, List.replicate_succ, List.flatten_cons]
    have hk := ih t 0x00
    simp only [trace] at hk
    rw [hk]
    rfl

/-- The trace of the initialisation step followed by `k` loop iterations:
the single TRISB write, then `k` copies of the loop-body events. -/
theorem trace_main (k t p : Nat) :
    trace (4 * k + 1) (initState t p) =
      Event.writeTRISB 0x00 :: (List.replicate k iterEvents).flatten := by
  have h1 : trace (4 * k + 1) (initState t p) =
      Event.writeTRISB 0x00 :: trace (4 * k) ⟨1, 0x00, p⟩ := rfl
  rw [h1, trace_loop]

/-- Unfolding one step from the start of `main` (program counter 0). -/
theorem run_succ_pc0 (n t p : Nat) :
    run (n + 1) ⟨0, t, p⟩ =
      ((run n ⟨1, 0x00, p⟩).1,
        Event.writeTRISB 0x00 :: (run n ⟨1, 0x00, p⟩).2) := rfl

/-- Unfolding one step from the top of the loop (program counter 1). -/
theorem run_succ_pc1 (n t p : Nat) :
    run (n + 1) ⟨1, t, p⟩ =
      ((run n ⟨2, t, 0x01⟩).1,
        Event.writePORTB 0x01 :: (run n ⟨2, t, 0x01⟩).2) := rfl

/-- Unfolding one step from the first busy-wait (program counter 2). -/
theorem run_succ_pc2 (n t p : Nat) :
    run (n + 1) ⟨2, t, p⟩ =
      ((run n ⟨3, t, p⟩).1,
        Event.delay delayCount :: (run n ⟨3, t, p⟩).2) := rfl

/-- Unfolding one step from the second PORTB write (program counter 3). -/
theorem run_succ_pc3 (n t p : Nat) :
    run (n + 1) ⟨3, t, p⟩ =
      ((run n ⟨4, t, 0x00⟩).1,
        Event.writePORTB 0x00 :: (run n ⟨4, t, 0x00⟩).2) := rfl

/-- Unfolding one step from the second busy-wait (program counter 4);
control returns to the top of the loop. -/
theorem run_succ_pc4 (n t p : Nat) :
    run (n + 1) ⟨4, t, p⟩ =
      ((run n ⟨1, t, p⟩).1,
        Event.delay delayCount :: (run n ⟨1, t, p⟩).2) := rfl

/-- Main loop invariant: starting anywhere inside the loop (program
counter between 1 and 4), after any number of steps the counter stays
between 1 and 4, TRISB is never modified, every emitted event is one of
the two PORTB writes or the busy-wait, and if PORTB started at 0 or 1 it
stays 0 or 1. -/
theorem loop_inv (n : Nat) : ∀ pc t p : Nat, 1 ≤ pc → pc ≤ 4 →
    (1 ≤ ((run n ⟨pc, t, p⟩).1).pc ∧ ((run n ⟨pc, t, p⟩).1).pc ≤ 4) ∧
    ((run n ⟨pc, t, p⟩).1).trisb = t ∧
    (∀ e ∈ (run n ⟨pc, t, p⟩).2,
      e = Event.writePORTB 0x01 ∨ e = Event.writePORTB 0x00 ∨
        e = Event.delay delayCount) ∧
    ((p = 0 ∨ p = 1) →
      ((run n ⟨pc, t, p⟩).1).portb = 0 ∨ ((run n ⟨pc, t, p⟩).1).portb = 1) := by
  induction n with
  | zero =>
    intro pc t p h1 h4
    refine ⟨⟨h1, h4⟩, rfl, ?_, fun hp => hp⟩
    intro e he
    cases he
  | succ n ih =>
    intro pc t p h1 h4
    interval_cases pc
    · rw [run_succ_pc1]
      have r := ih 2 t 0x01 (by omega) (by omega)
      refine ⟨r.1, r.2.1, ?_, fun _ => r.2.2.2 (Or.inr rfl)⟩
      intro e he
      rcases List.mem_cons.mp he with h | h
      · exact Or.inl h
      · exact r.2.2.1 e h
    · rw [run_succ_pc2]
      have r := ih 3 t p (by omega) (by omega)
      refine ⟨r.1, r.2.1, ?_, fun hp => r.2.2.2 hp⟩
      intro e he
      rcases List.mem_cons.mp he with h | h
      · exact Or.inr (Or.inr h)
      · exact r.2.2.1 e h
    · rw [run_succ_pc3]
      have r := ih 4 t 0x00 (by omega) (by omega)
      refine ⟨r.1, r.2.1, ?_, fun _ => r.2.2.2 (Or.inl rfl)⟩
      intro e he
      rcases List.mem_cons.mp he with h | h
      · exact Or.inr (Or.inl h)
      · exact r.2.2.1 e h
    · rw [run_succ_pc4]
      have r := ih 1 t p (by omega) (by omega)
      refine ⟨r.1, r.2.1, ?_, fun hp => r.2.2.2 hp⟩
      intro e he
      rcases List.mem_cons.mp he with h | h
      · exact Or.inr (Or.inr h)
      · exact r.2.2.1 e h

/-- The emitted trace does not depend on the register contents: two runs
of the same length from the same program point, with arbitrary different
register values, emit identical traces. -/
theorem trace_indep (n : Nat) : ∀ pc t1 p1 t2 p2 : Nat,
    (run n ⟨pc, t1, p1⟩).2 = (run n ⟨pc, t2, p2⟩).2 := by
  induction n with
  | zero => intro pc t1 p1 t2 p2; rfl
  | succ n ih =>
    intro pc t1 p1 t2 p2
    rcases pc with _ | _ | _ | _ | _ | pc
    · rw [run_succ_pc0, run_succ_pc0, ih 1 0x00 p1 0x00 p2]
    · rw [run_succ_pc1, run_succ_pc1, ih 2 t1 0x01 t2 0x01]
    · rw [run_succ_pc2, run_succ_pc2, ih 3 t1 p1 t2 p2]
    · rw [run_succ_pc3, run_succ_pc3, ih 4 t1 0x00 t2 0x00]
    · rw [run_succ_pc4, run_succ_pc4, ih 1 t1 p1 t2 p2]
    · rfl

/-- From any program point of `main` (counter at most 4) the machine can
take a step. -/
theorem step_isSome (s : MachState) (h : s.pc ≤ 4) : (step s).isSome = true := by
  obtain ⟨pc, t, p⟩ := s
  change pc ≤ 4 at h
  interval_cases pc <;> rfl

/-- The PORTB writes of `k` loop iterations are `k` copies of the pair
`0x01`, `0x00`. -/
theorem filterMap_portb_loop (k : Nat) :
    ((List.replicate k iterEvents).flatten).filterMap Event.portbValue =
      (List.replicate k [0x01, 0x00]).flatten := by
  induction k with
  | zero => rfl
  | succ k ih =>
    simp only [List.replicate_succ, List.flatten_cons, List.filterMap_append, ih]
    rfl

/-- The busy-wait counts of `k` loop iterations are `2 * k` copies of
`delayCount`. -/
theorem filterMap_delay_loop (k : Nat) :
    ((List.replicate k iterEvents).flatten).filterMap Event.delayValue =
      List.replicate (2 * k) delayCount := by
  induction k with
  | zero => rfl
  | succ k ih =>
    have h2 : 2 * (k + 1) = 2 * k + 1 + 1 := by ring
    simp only [List.replicate_succ, List.flatten_cons, List.filterMap_append, ih, h2]
    rfl

/-- The pin levels driven onto RB0 over the initialisation step plus `k`
loop iterations: `k` copies of HIGH, LOW. -/
theorem pinLevels_main (k t p : Nat) :
    pinLevels (4 * k + 1) (initState t p) =
      (List.replicate k [true, false]).flatten := by
  have h1 : pinLevels (4 * k + 1) (initState t p) =
      ((List.replicate k [0x01, 0x00]).flatten).map (fun v => v.testBit 0) := by
    simp only [pinLevels, trace_main, List.filterMap_cons]
    rw [show Event.portbValue (Event.writeTRISB 0x00) = none from rfl,
      filterMap_portb_loop]
  have h2 : ([0x01, 0x00] : List Nat).map (fun v => v.testBit 0) =
      [true, false] := by decide
  rw [h1, List.map_flatten, List.map_replicate, h2]

/-- Any number of copies of the pair HIGH, LOW forms a strictly
alternating sequence, with or without a LOW prepended. -/
theorem chain_alt (k : Nat) :
    List.Chain' (fun a b : Bool => a ≠ b)
      ((List.replicate k [true, false]).flatten) ∧
    List.Chain' (fun a b : Bool => a ≠ b)
      (false :: (List.replicate k [true, false]).flatten) := by
  induction k with
  | zero => exact ⟨List.chain'_nil, List.chain'_singleton false⟩
  | succ k ih =>
    have hf : (List.replicate (k + 1) [true, false]).flatten =
        true :: false :: (List.replicate k [true, false]).flatten := rfl
    rw [hf]
    refine ⟨?_, ?_⟩
    · rw [List.chain'_cons]
      exact ⟨by decide, ih.2⟩
    · rw [List.chain'_cons, List.chain'_cons]
      exact ⟨by decide, by decide, ih.2⟩

/-- Bit `j` of the value `0x01` is clear for every `j` other than 0. -/
theorem testBit_one_ne_zero (j : Nat) (h : j ≠ 0) :
    Nat.testBit 0x01 j = false := by
  apply Nat.testBit_lt_two_pow
  calc (0x01 : Nat) < 2 ^ 1 := by norm_num
    _ ≤ 2 ^ j := Nat.pow_le_pow_right (by norm_num)
        (Nat.one_le_iff_ne_zero.mpr h)

/-- Claim C1: the level driven onto the monitored pin RB0 alternates
strictly — in any simulation of `k` loop iterations no two consecutive
driven levels are equal — and simulating until four levels have been
driven yields HIGH, LOW, HIGH, LOW. -/
theorem C1_pin_alternates (t p k : Nat) :
    List.Chain' (fun a b : Bool => a ≠ b)
      (pinLevels (4 * k + 1) (initState t p)) ∧
    pinLevels (4 * 2 + 1) (initState t p) = [true, false, true, false] := by
  constructor
  · rw [pinLevels_main]
    exact (chain_alt k).1
  · rw [pinLevels_main]
    rfl

/-- Claim C2: in every iteration the first PORTB write is `0x01` — exactly
bit 0 set and every other bit clear — and the second is `0x00` — every bit
clear: the PORTB values written over `k` iterations are exactly `k` copies
of the pair `0x01`, `0x00`. -/
theorem C2_portb_write_values (t p k : Nat) :
    (trace (4 * k + 1) (initState t p)).filterMap Event.portbValue =
      (List.replicate k [0x01, 0x00]).flatten ∧
    Nat.testBit 0x01 0 = true ∧
    (∀ j : Nat, j ≠ 0 → Nat.testBit 0x01 j = false) ∧
    (∀ j : Nat, Nat.testBit 0x00 j = false) := by
  refine ⟨?_, by decide, testBit_one_ne_zero, fun j => Nat.zero_testBit j⟩
  rw [trace_main]
  simp only [List.filterMap_cons]
  rw [show Event.portbValue (Event.writeTRISB 0x00) = none from rfl,
    filterMap_portb_loop]

/-- Claim C3 (counterexample): the startup write to the port-direction
register carries the value 0x00, whose bits are all clear — not a value
with every bit set — shown from the concrete power-on state TRISB = 0x12,
PORTB = 0x34. -/
theorem C3_counterexample :
    trace 1 (initState 0x12 0x34) = [Event.writeTRISB 0x00] ∧
    Nat.testBit 0x00 0 = false ∧ (0x00 : Nat) ≠ 0xFF :=
  ⟨rfl, by decide, by decide⟩

/-- Claim C3 (amended): at startup, before entering the loop, the program
writes the port-direction register with the value 0x00 — every bit clear —
which on this part (where a direction bit of 0, not 1, means output, per
the source comment on src/main.c line 15) marks every pin of the bank as
an output and none as input. -/
theorem C3_direction_write (t p : Nat) :
    trace 1 (initState t p) = [Event.writeTRISB 0x00] ∧
    (stateAfter 1 (initState t p)).trisb = 0x00 ∧
    (∀ j : Nat, Nat.testBit 0x00 j = false) :=
  ⟨rfl, rfl, fun j => Nat.zero_testBit j⟩

/-- Claim C4 (counterexample): the iteration count passed to the busy-wait
is not scaled by the clock-frequency constant: with the constant at
8000000 and with it at 1000000 the argument is the same 100000. -/
theorem C4_counterexample :
    delayArg 8000000 = 100000 ∧ delayArg 1000000 = 100000 ∧
    delayArg 8000000 = delayArg 1000000 :=
  ⟨rfl, rfl, rfl⟩

/-- Claim C4 (amended): the iteration count passed to the busy-wait
primitive is the fixed literal 100000, independent of the compile-time
clock-frequency constant: the count is 100000 at every frequency, while
the constant itself is defined as 8000000 Hz but unused in the count. -/
theorem C4_delay_is_constant :
    (∀ freq : Nat, delayArg freq = 100000) ∧
    delayCount = 100000 ∧ XTAL_FREQ = 8000000 :=
  ⟨fun _ => rfl, rfl, rfl⟩

/-- Claim C5: the direction register is written exactly once, before the
loop begins, and never again: any run of `n ≥ 1` steps emits exactly one
TRISB write, it is the very first event, and TRISB still holds the written
value 0x00 after the run. -/
theorem C5_dir_written_once (t p n : Nat) (h : 1 ≤ n) :
    (trace n (initState t p)).countP isDirWrite = 1 ∧
    (trace n (initState t p)).head? = some (Event.writeTRISB 0x00) ∧
    (stateAfter n (initState t p)).trisb = 0x00 := by
  obtain ⟨m, rfl⟩ : ∃ m, n = m + 1 := ⟨n - 1, by omega⟩
  have r := loop_inv m 1 0x00 p (by omega) (by omega)
  simp only [trace, stateAfter, initState, run_succ_pc0]
  refine ⟨?_, rfl, r.2.1⟩
  rw [List.countP_cons]
  have hzero : ((run m ⟨1, 0x00, p⟩).2).countP isDirWrite = 0 := by
    rw [List.countP_eq_zero]
    intro e he
    rcases r.2.2.1 e he with h1 | h1 | h1 <;> simp [h1, isDirWrite]
  rw [hzero]
  rfl

/-- Witness for C5 at the concrete run of 9 steps from the power-on state
TRISB = 0x2A, PORTB = 0x15. -/
theorem C5_witness : 1 ≤ 9 ∧
    ((trace 9 (initState 0x2A 0x15)).countP isDirWrite = 1 ∧
      (trace 9 (initState 0x2A 0x15)).head? = some (Event.writeTRISB 0x00) ∧
      (stateAfter 9 (initState 0x2A 0x15)).trisb = 0x00) :=
  ⟨by decide, C5_dir_written_once 0x2A 0x15 9 (by decide)⟩

/-- Claim C6: over `k` iterations the busy-wait events are exactly `2 * k`
delays all carrying the same count, 100000: the high-hold busy-wait and
the low-hold busy-wait of every iteration use the identical fixed count. -/
theorem C6_equal_delays (t p k : Nat) :
    (trace (4 * k + 1) (initState t p)).filterMap Event.delayValue =
      List.replicate (2 * k) delayCount ∧
    delayCount = 100000 := by
  refine ⟨?_, rfl⟩
  rw [trace_main]
  simp only [List.filterMap_cons]
  rw [show Event.delayValue (Event.writeTRISB 0x00) = none from rfl,
    filterMap_delay_loop]

/-- Claim C7: the program never reaches a terminal state by its own logic:
after any number of steps from any power-on state, the machine can take
another step. -/
theorem C7_no_termination (t p n : Nat) :
    (step (stateAfter n (initState t p))).isSome = true := by
  rcases n with _ | m
  · rfl
  · have r := loop_inv m 1 0x00 p (by omega) (by omega)
    have hs : stateAfter (m + 1) (initState t p) =
        (run m ⟨1, 0x00, p⟩).1 := rfl
    rw [hs]
    exact step_isSome _ r.1.2

/-- Claim C8: the program reads no input and writes nothing besides the
two registers: the whole event trace is identical in any two runs of the
same length regardless of the power-on register contents, and every event
is the TRISB initialisation write, one of the two PORTB writes, or a
busy-wait (which writes no location). -/
theorem C8_noninterference (n t1 p1 t2 p2 : Nat) :
    trace n (initState t1 p1) = trace n (initState t2 p2) ∧
    (∀ e ∈ trace n (initState t1 p1),
      e = Event.writeTRISB 0x00 ∨ e = Event.writePORTB 0x01 ∨
        e = Event.writePORTB 0x00 ∨ e = Event.delay delayCount) := by
  constructor
  · exact trace_indep n 0 t1 p1 t2 p2
  · rcases n with _ | m
    · intro e he
      cases he
    · simp only [trace, initState, run_succ_pc0]
      intro e he
      rcases List.mem_cons.mp he with h | h
      · exact Or.inl h
      · have r := loop_inv m 1 0x00 p1 (by omega) (by omega)
        rcases r.2.2.1 e h with h1 | h1 | h1
        · exact Or.inr (Or.inl h1)
        · exact Or.inr (Or.inr (Or.inl h1))
        · exact Or.inr (Or.inr (Or.inr h1))

/-- Claim C9: the configuration fuses select the internal RC oscillator
with no clock-out, watchdog disabled, power-up timer enabled, master-clear
pin enabled, code protection disabled, brown-out reset disabled; the
clock-frequency constant is 8000000 Hz and the busy-wait count 100000. -/
theorem C9_config_values :
    config.fosc = OscSel.INTRC_NOCLKOUT ∧ config.wdte = false ∧
    config.pwrte = true ∧ config.mclre = true ∧ config.cp = false ∧
    config.boren = false ∧ XTAL_FREQ = 8000000 ∧ delayCount = 100000 :=
  ⟨rfl, rfl, rfl, rfl, rfl, rfl, rfl, rfl⟩

/-- Claim C10: from the first PORTB write onward (any run of at least two
steps) the output register holds either 0x00 or 0x01: bit 0 is the only
bit ever driven high and bits 1 through 7 stay clear for the whole run. -/
theorem C10_portb_invariant (t p n : Nat) (h : 2 ≤ n) :
    (stateAfter n (initState t p)).portb = 0x00 ∨
    (stateAfter n (initState t p)).portb = 0x01 := by
  obtain ⟨m, rfl⟩ : ∃ m, n = m + 2 := ⟨n - 2, by omega⟩
  have hs : stateAfter (m + 2) (initState t p) =
      (run m ⟨2, 0x00, 0x01⟩).1 := rfl
  rw [hs]
  have r := loop_inv m 2 0x00 0x01 (by omega) (by omega)
  exact r.2.2.2 (Or.inr rfl)

/-- Witness for C10 at the concrete run of 7 steps from the power-on state
TRISB = 0x55, PORTB = 0xAA. -/
theorem C10_witness : 2 ≤ 7 ∧
    ((stateAfter 7 (initState 0x55 0xAA)).portb = 0x00 ∨
      (stateAfter 7 (initState 0x55 0xAA)).portb = 0x01) :=
  ⟨by decide, C10_portb_invariant 0x55 0xAA 7 (by decide)⟩

end SC8P052
